import Mathlib

/-!
# Qiniu object-storage adapter (`pkg/storage/chunk/client/qiniu`)

A shallow embedding of `qiniu_object_client.go` and of the pieces of the Go
standard library it calls (`url.QueryEscape`, `url.Values`, `strings.Contains`,
`strconv.ParseInt`, `time.Unix`, `fmt` with `%d`), followed by theorems about
the adapter's contract.

Conventions of the embedding:

* a Go `string` is its sequence of bytes, a `List Nat` whose entries are below 256;
* `int64` values are `Int`s, wrapped with `wrap64` wherever Go arithmetic can
  overflow; `uint64` values are `Nat`s reduced modulo `2^64`;
* a Go `error` is `Option GoError`, `none` being `nil`;
* calls that leave the process (the listing endpoint, the HTTP client, the
  uploader, the clock) are explicit inputs or explicit state.
-/

namespace Qiniu

/-! ## Strings -/

/-- A Go string: a sequence of bytes (values below 256). -/
abbrev GoString := List Nat

/-- The bytes of a string literal (UTF-8). -/
def str (s : String) : GoString :=
  s.data.flatMap (fun c => (String.utf8EncodeChar c).map UInt8.toNat)

/-- A Go error value, identified by what its `Error()` method returns. -/
structure GoError where
  msg : GoString
deriving DecidableEq, Repr

/-- The Go type `error`; `none` is `nil`. -/
abbrev error := Option GoError

/-! ## Machine integers -/

/-- Two's-complement wrap of an integer into the `int64` range. -/
def wrap64 (x : Int) : Int := (x + 2 ^ 63) % 2 ^ 64 - 2 ^ 63

/-- Membership in the `int64` range. -/
def isInt64 (x : Int) : Prop := -(2 ^ 63 : Int) ≤ x ∧ x < 2 ^ 63

instance (x : Int) : Decidable (isInt64 x) := by unfold isInt64; infer_instance

/-! ## `net/url` -/

/-- `url.shouldEscape(c, encodeQueryComponent)`: only the unreserved characters
(alphanumerics and `-`, `_`, `.`, `~`) are left alone. -/
def shouldEscape (c : Nat) : Bool :=
  if (97 ≤ c ∧ c ≤ 122) ∨ (65 ≤ c ∧ c ≤ 90) ∨ (48 ≤ c ∧ c ≤ 57) then false
  else if c = 45 ∨ c = 95 ∨ c = 46 ∨ c = 126 then false
  else true

/-- The table `upperhex = "0123456789ABCDEF"`, indexed. -/
def upperhex (i : Nat) : Nat := if i < 10 then 48 + i else 55 + i

/-- `url.QueryEscape`: a space becomes `+`, every other byte that must be
escaped becomes `%XX` in upper-case hexadecimal, the rest is copied. -/
def QueryEscape : GoString → GoString
  | [] => []
  | c :: cs =>
    if c = 32 then 43 :: QueryEscape cs
    else if shouldEscape c then 37 :: upperhex (c / 16) :: upperhex (c % 16) :: QueryEscape cs
    else c :: QueryEscape cs

/-- `url.Values`, a `map[string][]string`, as an association list. -/
abbrev Values := List (GoString × List GoString)

/-- `Values.Add`: append `value` to the values recorded for `key`. -/
def Values.Add : Values → GoString → GoString → Values
  | [], key, value => [(key, [value])]
  | (k, vs) :: rest, key, value =>
    if k = key then (k, vs ++ [value]) :: rest
    else (k, vs) :: Values.Add rest key value

/-- Map lookup `v[k]`; a missing key gives the empty slice. -/
def Values.get : Values → GoString → List GoString
  | [], _ => []
  | (k, vs) :: rest, key => if k = key then vs else Values.get rest key

/-- Go's `<` on strings: byte-wise lexicographic order. -/
def strLess : GoString → GoString → Bool
  | [], [] => false
  | [], _ :: _ => true
  | _ :: _, [] => false
  | a :: as, b :: bs => if a < b then true else if b < a then false else strLess as bs

/-- Insertion into a sorted list of strings. -/
def insertSorted (k : GoString) : List GoString → List GoString
  | [] => [k]
  | x :: xs => if strLess x k then x :: insertSorted k xs else k :: x :: xs

/-- `slices.Sort(keys)`. -/
def sortStrings : List GoString → List GoString
  | [] => []
  | k :: ks => insertSorted k (sortStrings ks)

/-- The inner loop of `Values.Encode` for one key: each value is written as
`key=value`, preceded by `&` when the buffer is not empty. -/
def encodeKey (keyEscaped : GoString) (buf : GoString) (vs : List GoString) : GoString :=
  vs.foldl (fun b v =>
    (if b.length > 0 then b ++ [38] else b) ++ keyEscaped ++ [61] ++ QueryEscape v) buf

/-- `Values.Encode`: the keys are sorted, then every `key=value` pair is
written in that order. -/
def Values.Encode (v : Values) : GoString :=
  if v.length = 0 then []
  else
    let keys := sortStrings (v.map Prod.fst)
    keys.foldl (fun buf k => encodeKey (QueryEscape k) buf (Values.get v k)) []

/-! ## `uriList` -/

/-- The function `uriList` of `qiniu_object_client.go`. -/
def uriList (host bucket pfx delimiter : GoString) : GoString :=
  let query : Values := []
  let query := query.Add (str "bucket") bucket
  let query := if pfx ≠ [] then query.Add (str "prefix") pfx else query
  let query := if delimiter ≠ [] then query.Add (str "delimiter") delimiter else query
  let query := query.Add (str "limit") (str "1000")
  host ++ str "/list?" ++ query.Encode ++ str "&marker="

/-! ## `strings` and `fmt` -/

/-- `strings.HasPrefix(s, p)`. -/
def startsWith : GoString → GoString → Bool
  | _, [] => true
  | [], _ :: _ => false
  | c :: cs, p :: ps => if c = p then startsWith cs ps else false

/-- `strings.Contains(s, substr)`, that is `strings.Index(s, substr) >= 0`:
some position of `s` starts an occurrence of `substr`. -/
def Contains : GoString → GoString → Bool
  | [], substr => startsWith [] substr
  | c :: cs, substr => startsWith (c :: cs) substr || Contains cs substr

/-- The decimal digits of a natural number, as bytes. -/
def decimal (n : Nat) : GoString := (Nat.toDigits 10 n).map Char.toNat

/-- The verb `%d` of `fmt` applied to an integer. -/
def fmtD (n : Int) : GoString :=
  if n < 0 then 45 :: decimal n.natAbs else decimal n.natAbs

/-! ## `strconv` -/

/-- The two failures of `strconv`: `ErrSyntax` and `ErrRange`. -/
inductive NumError where
  | ErrSyntax
  | ErrRange
deriving DecidableEq, Repr

/-- The constant `maxUint64`. -/
def maxUint64 : Nat := 2 ^ 64 - 1

/-- The digit a byte stands for in `strconv.ParseUint`: `c - '0'` for a
decimal digit, `lower(c) - 'a' + 10` for a letter (`lower(c)` is `c | 0x20`),
nothing otherwise. -/
def digitOf (c : Nat) : Option Nat :=
  let lower := c ||| 32
  if 48 ≤ c ∧ c ≤ 57 then some (c - 48)
  else if 97 ≤ lower ∧ lower ≤ 122 then some (lower - 97 + 10)
  else none

/-- The loop of `strconv.ParseUint` at base 10 (so `base0` is false and an
underscore is a syntax error): `n` is the `uint64` accumulator, `cutoff` is
`maxUint64/10 + 1` and `maxVal` is `1<<bitSize - 1`. -/
def parseUintLoop (cutoff maxVal : Nat) : Nat → GoString → Nat × Option NumError
  | n, [] => (n, none)
  | n, c :: cs =>
    match digitOf c with
    | none => (0, some .ErrSyntax)
    | some d =>
      if d ≥ 10 then (0, some .ErrSyntax)
      else if n ≥ cutoff then (maxVal, some .ErrRange)
      else
        let n := (n * 10) % 2 ^ 64
        let n1 := (n + d) % 2 ^ 64
        if n1 < n ∨ n1 > maxVal then (maxVal, some .ErrRange)
        else parseUintLoop cutoff maxVal n1 cs

/-- `strconv.ParseUint(s, 10, bitSize)` for `1 ≤ bitSize ≤ 64`. -/
def ParseUint (s : GoString) (bitSize : Nat) : Nat × Option NumError :=
  if s = [] then (0, some .ErrSyntax)
  else parseUintLoop (maxUint64 / 10 + 1) (((2 ^ bitSize) % 2 ^ 64 + 2 ^ 64 - 1) % 2 ^ 64) 0 s

/-- `strconv.ParseInt(s, 10, bitSize)` for `1 ≤ bitSize ≤ 64`: an optional
sign, then `ParseUint`; a value that does not fit is reported as `ErrRange`
together with the nearest bound. -/
def ParseInt (s : GoString) (bitSize : Nat) : Int × Option NumError :=
  match s with
  | [] => (0, some .ErrSyntax)
  | c :: cs =>
    let (neg, s1) : Bool × GoString :=
      if c = 43 then (false, cs) else if c = 45 then (true, cs) else (false, c :: cs)
    match ParseUint s1 bitSize with
    | (_, some .ErrSyntax) => (0, some .ErrSyntax)
    | (un, _) =>
      let cutoff : Nat := (2 ^ (bitSize - 1)) % 2 ^ 64
      if !neg ∧ un ≥ cutoff then (wrap64 ((cutoff : Int) - 1), some .ErrRange)
      else if neg ∧ un > cutoff then (wrap64 (-(wrap64 cutoff)), some .ErrRange)
      else
        let n := wrap64 un
        (if neg then wrap64 (-n) else n, none)

/-! ## `time` -/

/-- An instant, as `time.Time` reports it: `Unix()` whole seconds since the
epoch and `Nanosecond()` within the second. -/
structure Time where
  sec : Int
  nsec : Int
deriving DecidableEq, Repr

/-- `time.Unix(sec, nsec)`: `nsec` outside `[0, 1e9)` is carried into `sec`.
The quotient of Go's `/` truncates towards zero. -/
def timeUnix (sec nsec : Int) : Time :=
  if nsec < 0 ∨ nsec ≥ 1000000000 then
    let n := Int.tdiv nsec 1000000000
    let sec := wrap64 (sec + n)
    let nsec := wrap64 (nsec - wrap64 (n * 1000000000))
    if nsec < 0 then ⟨wrap64 (sec - 1), wrap64 (nsec + 1000000000)⟩
    else ⟨sec, nsec⟩
  else ⟨sec, nsec⟩

/-! ## The adapter -/

/-- The fields of `storage.ListItem` that `List` reads. -/
structure ListItem where
  Key : GoString
  PutTime : Int
deriving DecidableEq, Repr

/-- The struct `listFilesRet`: one decoded page of a listing. -/
structure listFilesRet where
  Marker : GoString
  Items : List ListItem
  CommonPrefixes : List GoString
deriving DecidableEq, Repr

/-- The struct `client.StorageObject`. -/
structure StorageObject where
  Key : GoString
  ModifiedAt : Time
deriving DecidableEq, Repr

/-- The type `client.StorageCommonPrefix`, a named string type. -/
abbrev StorageCommonPrefix := GoString

/-- The struct `storage.PutPolicy`, with the two fields `PutObject` sets. -/
structure PutPolicy where
  Scope : GoString
  Expires : Nat
deriving DecidableEq, Repr

/-- The fields of `QiniuObjectStorage` that hold data; the SDK handles
(`manager`, `uploader`, `client`) are the environments below. -/
structure QiniuObjectStorage where
  mac : GoString × GoString
  bucket : GoString
  base : GoString
  token : GoString
  last : Int
deriving DecidableEq, Repr

/-- The struct `QiniuStorageConfig` of `config.go`. -/
structure QiniuStorageConfig where
  Url : GoString
  AccessKeyId : GoString
  SecretAccessKey : GoString
  BucketName : GoString
  Region : GoString
  UseHttps : Bool
  UseCdn : Bool
  Private : Bool
deriving DecidableEq, Repr

/-- The data fields `NewQiniuObjectStorage` sets: credentials, bucket and base
URL from the configuration; `token` and `last` keep their zero values. -/
def NewQiniuObjectStorage (cfg : QiniuStorageConfig) : QiniuObjectStorage :=
  { mac := (cfg.AccessKeyId, cfg.SecretAccessKey)
    bucket := cfg.BucketName
    base := cfg.Url
    token := []
    last := 0 }

/-- The method `IsObjectNotFoundErr`. Calling `Error()` on a nil error is a
run-time panic, rendered as `none`. -/
def IsObjectNotFoundErr (err : error) : Option Bool :=
  match err with
  | none => none
  | some e =>
    let v := e.msg
    if Contains v (str "404") then some true else some false

/-! ### `GetObject` -/

/-- An HTTP response body: what `Close` returns, and whether it was called. -/
structure Body where
  data : GoString
  closeErr : error
  closed : Bool
deriving DecidableEq, Repr

/-- The method `Close` of a response body. -/
def Body.Close (b : Body) : error × Body := (b.closeErr, { b with closed := true })

/-- The parts of `http.Response` that `GetObject` reads; `contentLength` is
`resp.Header.Get("Content-Length")`, empty when the header is absent. -/
structure Response where
  StatusCode : Int
  contentLength : GoString
  Body : Body
deriving DecidableEq, Repr

/-- The request `GetObject` builds. -/
structure Request where
  method : GoString
  url : GoString
  userAgent : GoString
deriving DecidableEq, Repr

/-- What HTTP does for `GetObject`: the URL strategy `makeUrl`, the validation
of `http.NewRequestWithContext` (an error for a URL it rejects) and the
round trip `client.Do`. -/
structure HttpEnv where
  makeUrl : GoString × GoString → GoString → GoString → GoString
  newRequest : GoString → GoString → error
  doRequest : Request → Except GoError Response

/-- The outcome of `GetObject`: the three returned values, and the response
body as the call left it (`none` when no response was received). -/
structure GetResult where
  stream : Option Body
  size : Int
  err : error
  respBody : Option Body
deriving DecidableEq, Repr

/-- The method `GetObject`. -/
def GetObject (env : HttpEnv) (q : QiniuObjectStorage) (objectKey : GoString) : GetResult :=
  let rawurl := env.makeUrl q.mac q.base objectKey
  match env.newRequest (str "GET") rawurl with
  | some err => ⟨none, 0, some err, none⟩
  | none =>
    let req : Request := ⟨str "GET", rawurl, str "storage"⟩
    match env.doRequest req with
    | .error err => ⟨none, 0, some err, none⟩
    | .ok resp =>
      if resp.StatusCode ≠ 200 then
        let (_, body) := resp.Body.Close
        let err : GoError := ⟨str "http status " ++ fmtD resp.StatusCode⟩
        ⟨none, 0, some err, some body⟩
      else
        let (total, _) := ParseInt resp.contentLength 63
        ⟨some resp.Body, total, none, some resp.Body⟩

/-! ### `List` -/

/-- What the SDK does for `List`: `RsfReqHost` resolves the listing host, and
`call` is `CredentialedCall` on a request URL, decoding the reply into a
fresh `listFilesRet`; the provider is a transition system on `σ`. -/
structure ListEnv (σ : Type) where
  RsfReqHost : GoString → Except GoError GoString
  call : σ → GoString → Except GoError listFilesRet × σ

/-- The three values `List` returns. -/
structure ListResult where
  objects : List StorageObject
  prefixes : List StorageCommonPrefix
  err : error
deriving DecidableEq, Repr

/-- The object `List` appends for one item: the put time, in units of 100 ns,
is multiplied by 100 in `int64` and handed to `time.Unix(0, _)`. -/
def toStorageObject (it : ListItem) : StorageObject :=
  { Key := it.Key, ModifiedAt := timeUnix 0 (wrap64 (it.PutTime * 100)) }

/-- The loop `for i := range ret.Items { objects = append(objects, ...) }`. -/
def appendItems (objects : List StorageObject) (items : List ListItem) : List StorageObject :=
  items.foldl (fun acc it => acc ++ [toStorageObject it]) objects

/-- The loop `for _, p := range ret.CommonPrefixes { prefixes = append(prefixes, ...) }`. -/
def appendPrefixes (prefixes : List StorageCommonPrefix) (ps : List GoString) :
    List StorageCommonPrefix :=
  ps.foldl (fun acc p => acc ++ [p]) prefixes

/-- The `for` loop of `List`. The Go loop has no bound; here `fuel` bounds
the number of requests and `none` is returned when it runs out. -/
def listLoop {σ : Type} (env : ListEnv σ) (base : GoString) :
    Nat → σ → GoString → List StorageObject → List StorageCommonPrefix → Option (ListResult × σ)
  | 0, _, _, _, _ => none
  | fuel + 1, st, marker, objects, prefixes =>
    let rawurl := base ++ QueryEscape marker
    match env.call st rawurl with
    | (.error err, st1) => some (⟨objects, prefixes, some err⟩, st1)
    | (.ok ret, st1) =>
      let objects := appendItems objects ret.Items
      let prefixes := appendPrefixes prefixes ret.CommonPrefixes
      if ret.Marker = [] then some (⟨objects, prefixes, none⟩, st1)
      else listLoop env base fuel st1 ret.Marker objects prefixes

/-- The method `List`. -/
def QiniuObjectStorage.List {σ : Type} (env : ListEnv σ) (q : QiniuObjectStorage) (fuel : Nat)
    (st : σ) (pfx delimiter : GoString) : Option (ListResult × σ) :=
  match env.RsfReqHost q.bucket with
  | .error err => some (⟨[], [], some err⟩, st)
  | .ok host => listLoop env (uriList host q.bucket pfx delimiter) fuel st [] [] []

/-- A scripted provider: the replies still to be given, and the request URLs
received so far, oldest first. -/
structure Script where
  pending : List (Except GoError listFilesRet)
  requests : List GoString

/-- The scripted provider answers each request with the next scripted reply,
whatever the URL, and records the URL; once the script is used up it fails
with `exhausted`. -/
def scriptedCall (exhausted : GoError) (st : Script) (rawurl : GoString) :
    Except GoError listFilesRet × Script :=
  match st.pending with
  | [] => (.error exhausted, ⟨[], st.requests ++ [rawurl]⟩)
  | r :: rest => (r, ⟨rest, st.requests ++ [rawurl]⟩)

/-- The environment of `List` over a scripted provider whose host lookup
succeeds with `host`. -/
def scriptedEnv (host : GoString) (exhausted : GoError) : ListEnv Script :=
  { RsfReqHost := fun _ => .ok host, call := scriptedCall exhausted }

/-! ### `PutObject` -/

/-- The argument `object io.ReadSeeker` by dynamic type: a `*bytes.Reader` or
a `*strings.Reader` (the underlying bytes and the read index), or any other
seekable stream, in a state of type `σ`. -/
inductive ReadSeeker (σ : Type) where
  | bytesReader (s : GoString) (i : Int)
  | stringsReader (s : GoString) (i : Int)
  | other (st : σ)

/-- The arguments `PutObject` hands to `uploader.Put`. -/
structure UploadCall (σ : Type) where
  token : GoString
  key : GoString
  rd : ReadSeeker σ
  size : Int

/-- What the SDK and the stream do for `PutObject`: minting an upload token
(the SDK reads the clock itself to turn `Expires` into a deadline, so the
clock reading is an argument), `Seek(offset, whence)` on a stream that is not
an in-memory reader, and the upload itself. -/
structure PutEnv (σ : Type) where
  UploadToken : Int → PutPolicy → GoString × GoString → GoString
  Seek : σ → Int → Int → (Int × error) × σ
  Put : UploadCall σ → error

/-- The constant `io.SeekStart`. -/
def SeekStart : Int := 0

/-- The constant `io.SeekEnd`. -/
def SeekEnd : Int := 2

/-- The method `PutObject`, at clock reading `now` (`time.Now().Unix()`): the
adapter after the call, the upload that was issued, and the returned error. -/
def PutObject {σ : Type} (env : PutEnv σ) (now : Int) (q : QiniuObjectStorage)
    (objectKey : GoString) (object : ReadSeeker σ) :
    QiniuObjectStorage × UploadCall σ × error :=
  let q :=
    if q.token = [] ∨ wrap64 (now - q.last) > 3600 then
      let p : PutPolicy := { Scope := q.bucket, Expires := 4000 }
      { q with token := env.UploadToken now p q.mac, last := now }
    else q
  let (rd, size) : ReadSeeker σ × Int :=
    match object with
    | .bytesReader s i => (.bytesReader s i, (s.length : Int))
    | .stringsReader s i => (.stringsReader s i, (s.length : Int))
    | .other st =>
      let ((e, _), st1) := env.Seek st 0 SeekEnd
      let ((b, _), st2) := env.Seek st1 0 SeekStart
      (.other st2, wrap64 (e - b))
  let upload : UploadCall σ := ⟨q.token, objectKey, rd, size⟩
  (q, upload, env.Put upload)

/-- A seekable stream over stored bytes, such as an open file: the content and
the current offset. -/
structure FileStream where
  content : GoString
  pos : Int
deriving DecidableEq, Repr

/-- `Seek` as the contract of `io.Seeker` describes it: the new offset is
relative to the start (whence 0), the current offset (1) or the end (2);
a negative offset is an error and leaves the stream where it was. -/
def FileStream.Seek (f : FileStream) (offset whence : Int) : (Int × error) × FileStream :=
  let abs : Option Int :=
    if whence = 0 then some offset
    else if whence = 1 then some (f.pos + offset)
    else if whence = 2 then some ((f.content.length : Int) + offset)
    else none
  match abs with
  | none => ((0, some ⟨str "invalid whence"⟩), f)
  | some a =>
    if a < 0 then ((0, some ⟨str "negative position"⟩), f)
    else ((a, none), { f with pos := a })

/-! ## Vocabulary of the statements -/

/-- The objects of a sequence of pages, in page order. -/
def pageObjects (pages : List listFilesRet) : List StorageObject :=
  pages.flatMap (fun p => p.Items.map toStorageObject)

/-- The common prefixes of a sequence of pages, in page order. -/
def pagePrefixes (pages : List listFilesRet) : List StorageCommonPrefix :=
  pages.flatMap (fun p => p.CommonPrefixes)

/-- The request URLs for a sequence of markers. -/
def requestUrls (base : GoString) (markers : List GoString) : List GoString :=
  markers.map (fun m => base ++ QueryEscape m)

/-- A byte is a decimal digit, `'0'` to `'9'`. -/
def isDigit (c : Nat) : Prop := 48 ≤ c ∧ c ≤ 57

instance (c : Nat) : Decidable (isDigit c) := by unfold isDigit; infer_instance

/-- Reading decimal digits, most significant first, onto the number `n`. -/
def digitsOnto (n : Nat) (ds : GoString) : Nat := ds.foldl (fun acc c => acc * 10 + (c - 48)) n

/-- The number a string of decimal digits denotes. -/
def digitsValue (ds : GoString) : Nat := digitsOnto 0 ds

/-- A header split into its optional leading sign (`true` for `-`) and the rest. -/
def splitSign : GoString → Bool × GoString
  | 43 :: rest => (false, rest)
  | 45 :: rest => (true, rest)
  | s => (false, s)

/-! ## Concrete instances -/

/-- A freshly constructed adapter for the bucket "bk" served at "http://d". -/
def sampleAdapter : QiniuObjectStorage :=
  NewQiniuObjectStorage
    { Url := str "http://d", AccessKeyId := str "ak", SecretAccessKey := str "sk",
      BucketName := str "bk", Region := [], UseHttps := false, UseCdn := false,
      Private := false }

/-- An HTTP environment that accepts every URL and answers every request with
`resp`; the URL of a key is the base, a slash and the key. -/
def fixedHttp (resp : Response) : HttpEnv :=
  { makeUrl := fun _ base key => base ++ [47] ++ key
    newRequest := fun _ _ => none
    doRequest := fun _ => .ok resp }

/-- A response with the given status and Content-Length header and an open,
empty body. -/
def sampleResponse (status : Int) (contentLength : String) : Response :=
  { StatusCode := status, contentLength := str contentLength,
    Body := { data := [], closeErr := none, closed := false } }

/-- A listing page with one item and one common prefix. -/
def samplePage (marker key : String) : listFilesRet :=
  { Marker := str marker
    Items := [{ Key := str key, PutTime := 17000000000000001 }]
    CommonPrefixes := [str key ++ [47]] }

/-- An upload environment over file-like streams: the token is made of the
access key, the scope and the deadline, and every upload succeeds. -/
def samplePut : PutEnv FileStream :=
  { UploadToken := fun now p mac => mac.1 ++ [58] ++ p.Scope ++ [58] ++ fmtD (now + p.Expires)
    Seek := FileStream.Seek
    Put := fun _ => none }

/-! ## Lemmas on the library models -/

theorem startsWith_iff (s p : GoString) : startsWith s p = true ↔ ∃ post, s = p ++ post := by
  induction p generalizing s with
  | nil => simp [startsWith]
  | cons a p ih =>
    cases s with
    | nil => simp [startsWith]
    | cons c cs =>
      simp only [startsWith]
      split_ifs with h
      · subst h
        rw [ih]
        simp
      · simp only [List.cons_append, List.cons.injEq, false_iff, not_exists, not_and]
        intro x hx
        exact absurd hx h

theorem Contains_iff (s sub : GoString) :
    Contains s sub = true ↔ ∃ pre post, s = pre ++ sub ++ post := by
  induction s with
  | nil =>
    simp only [Contains, startsWith_iff]
    constructor
    · rintro ⟨post, h⟩
      exact ⟨[], post, by simpa using h⟩
    · rintro ⟨pre, post, h⟩
      have h1 : pre = [] ∧ sub = [] ∧ post = [] := by
        simpa [List.append_eq_nil, and_assoc] using h.symm
      exact ⟨[], by simp [h1.2.1]⟩
  | cons c cs ih =>
    simp only [Contains, Bool.or_eq_true, startsWith_iff, ih]
    constructor
    · rintro (⟨post, h⟩ | ⟨pre, post, h⟩)
      · exact ⟨[], post, by simpa using h⟩
      · exact ⟨c :: pre, post, by simp [h]⟩
    · rintro ⟨pre, post, h⟩
      cases pre with
      | nil => exact Or.inl ⟨post, by simpa using h⟩
      | cons a pre =>
        simp only [List.cons_append, List.cons.injEq] at h
        exact Or.inr ⟨pre, post, h.2⟩

theorem encode_four (kb kp kd kl vb vp vd vl : GoString)
    (e1 : kb ≠ kp) (e2 : kb ≠ kd) (e3 : kp ≠ kd) (e4 : kb ≠ kl) (e5 : kp ≠ kl) (e6 : kd ≠ kl)
    (s1 : sortStrings [kb, kp, kd, kl] = [kb, kd, kl, kp]) :
    Values.Encode (Values.Add (Values.Add (Values.Add (Values.Add [] kb vb) kp vp) kd vd) kl vl)
      = QueryEscape kb ++ [61] ++ QueryEscape vb ++ [38] ++ QueryEscape kd ++ [61] ++ QueryEscape vd
          ++ [38] ++ QueryEscape kl ++ [61] ++ QueryEscape vl
          ++ [38] ++ QueryEscape kp ++ [61] ++ QueryEscape vp := by
  simp only [Values.Add, Values.Encode, Values.get, encodeKey, if_true, if_false, e1, e2, e3, e4,
    e5, e6, e1.symm, e2.symm, e3.symm, e4.symm, e5.symm, e6.symm, List.map, s1, List.foldl]
  simp [List.append_assoc]

set_option maxRecDepth 100000 in
theorem status_message_404 : ∀ n : Nat, n < 500 →
    (Contains (str "http status " ++ fmtD ((n + 100 : Nat) : Int)) (str "404") = true
      ↔ n + 100 = 404) := by
  decide

theorem appendItems_eq (objects : List StorageObject) (items : List ListItem) :
    appendItems objects items = objects ++ items.map toStorageObject := by
  induction items generalizing objects with
  | nil => simp [appendItems]
  | cons it items ih =>
    have h := ih (objects ++ [toStorageObject it])
    simp only [appendItems, List.foldl_cons] at h ⊢
    rw [h]
    simp

theorem appendPrefixes_eq (prefixes : List StorageCommonPrefix) (ps : List GoString) :
    appendPrefixes prefixes ps = prefixes ++ ps := by
  induction ps generalizing prefixes with
  | nil => simp [appendPrefixes]
  | cons p ps ih =>
    have h := ih (prefixes ++ [p])
    simp only [appendPrefixes, List.foldl_cons] at h ⊢
    rw [h]
    simp

theorem listLoop_pages (host : GoString) (exhausted : GoError) (base : GoString)
    (last : listFilesRet) (rest : List (Except GoError listFilesRet)) (hlast : last.Marker = []) :
    ∀ (pages : List listFilesRet) (fuel : Nat) (reqs : List GoString) (marker : GoString)
      (objects : List StorageObject) (prefixes : List StorageCommonPrefix),
      (∀ p ∈ pages, p.Marker ≠ []) → pages.length + 1 ≤ fuel →
      listLoop (scriptedEnv host exhausted) base fuel
          ⟨(pages ++ [last]).map Except.ok ++ rest, reqs⟩ marker objects prefixes
        = some (⟨objects ++ pageObjects (pages ++ [last]),
                 prefixes ++ pagePrefixes (pages ++ [last]), none⟩,
                ⟨rest, reqs ++ requestUrls base (marker :: pages.map (fun p => p.Marker))⟩) := by
  intro pages
  induction pages with
  | nil =>
    intro fuel reqs marker objects prefixes _ hfuel
    obtain ⟨f, rfl⟩ : ∃ f, fuel = f + 1 := ⟨fuel - 1, by omega⟩
    simp [listLoop, scriptedEnv, scriptedCall, hlast, appendItems_eq, appendPrefixes_eq,
      pageObjects, pagePrefixes, requestUrls]
  | cons p pages ih =>
    intro fuel reqs marker objects prefixes hp hfuel
    obtain ⟨f, rfl⟩ : ∃ f, fuel = f + 1 := ⟨fuel - 1, by omega⟩
    have hpm : p.Marker ≠ [] := hp p (List.mem_cons_self _ _)
    have hrest : ∀ p' ∈ pages, p'.Marker ≠ [] := fun p' h => hp p' (List.mem_cons_of_mem _ h)
    have hf : pages.length + 1 ≤ f := by simp at hfuel; omega
    have h := ih f (reqs ++ [base ++ QueryEscape marker]) p.Marker
      (objects ++ p.Items.map toStorageObject) (prefixes ++ p.CommonPrefixes) hrest hf
    simp only [scriptedEnv] at h
    simp only [listLoop, scriptedEnv, scriptedCall, List.cons_append, List.map_cons, hpm,
      if_false, appendItems_eq, appendPrefixes_eq, h]
    simp [pageObjects, pagePrefixes, requestUrls]

theorem listLoop_error (host : GoString) (exhausted : GoError) (base : GoString)
    (e : GoError) (rest : List (Except GoError listFilesRet)) :
    ∀ (pages : List listFilesRet) (fuel : Nat) (reqs : List GoString) (marker : GoString)
      (objects : List StorageObject) (prefixes : List StorageCommonPrefix),
      (∀ p ∈ pages, p.Marker ≠ []) → pages.length + 1 ≤ fuel →
      listLoop (scriptedEnv host exhausted) base fuel
          ⟨pages.map Except.ok ++ Except.error e :: rest, reqs⟩ marker objects prefixes
        = some (⟨objects ++ pageObjects pages, prefixes ++ pagePrefixes pages, some e⟩,
                ⟨rest, reqs ++ requestUrls base (marker :: pages.map (fun p => p.Marker))⟩) := by
  intro pages
  induction pages with
  | nil =>
    intro fuel reqs marker objects prefixes _ hfuel
    obtain ⟨f, rfl⟩ : ∃ f, fuel = f + 1 := ⟨fuel - 1, by omega⟩
    simp [listLoop, scriptedEnv, scriptedCall, pageObjects, pagePrefixes, requestUrls]
  | cons p pages ih =>
    intro fuel reqs marker objects prefixes hp hfuel
    obtain ⟨f, rfl⟩ : ∃ f, fuel = f + 1 := ⟨fuel - 1, by omega⟩
    have hpm : p.Marker ≠ [] := hp p (List.mem_cons_self _ _)
    have hrest : ∀ p' ∈ pages, p'.Marker ≠ [] := fun p' h => hp p' (List.mem_cons_of_mem _ h)
    have hf : pages.length + 1 ≤ f := by simp at hfuel; omega
    have h := ih f (reqs ++ [base ++ QueryEscape marker]) p.Marker
      (objects ++ p.Items.map toStorageObject) (prefixes ++ p.CommonPrefixes) hrest hf
    simp only [scriptedEnv] at h
    simp only [listLoop, scriptedEnv, scriptedCall, List.cons_append, List.map_cons, hpm,
      if_false, appendItems_eq, appendPrefixes_eq, h]
    simp [pageObjects, pagePrefixes, requestUrls]

theorem wrap64_of_isInt64 (x : Int) (h : isInt64 x) : wrap64 x = x := by
  unfold isInt64 at h
  unfold wrap64
  omega

theorem timeUnix_zero (n : Int) (h : isInt64 n) :
    timeUnix 0 n = ⟨n / 1000000000, n % 1000000000⟩ := by
  unfold isInt64 at h
  unfold timeUnix
  by_cases h0 : n < 0
  · have hq : Int.tdiv n 1000000000 = -((-n) / 1000000000) := by
      have := Int.neg_tdiv (-n) 1000000000
      rw [neg_neg] at this
      rw [this, Int.tdiv_eq_ediv (by omega) (by omega)]
    simp only [h0, true_or, if_true, hq]
    simp only [wrap64]
    split_ifs with h1 <;> simp only [Time.mk.injEq] <;> omega
  · by_cases h1 : n ≥ 1000000000
    · have hq : Int.tdiv n 1000000000 = n / 1000000000 :=
        Int.tdiv_eq_ediv (by omega) (by omega)
      simp only [h1, or_true, if_true, hq]
      simp only [wrap64]
      split_ifs with h2 <;> simp only [Time.mk.injEq] <;> omega
    · simp only [h0, h1, or_self, if_false, Time.mk.injEq]
      omega

/-- A file-like stream measures its content, from any offset: seeking to the
end returns the length and seeking to the start returns 0, both without error. -/
theorem FileStream_seeks (content : GoString) (pos : Int) :
    FileStream.Seek ⟨content, pos⟩ 0 SeekEnd
      = (((content.length : Int), none), ⟨content, content.length⟩)
    ∧ FileStream.Seek ⟨content, content.length⟩ 0 SeekStart = ((0, none), ⟨content, 0⟩) := by
  constructor
  · have h : ¬ ((content.length : Int) < 0) := by omega
    simp [FileStream.Seek, SeekEnd, h]
  · simp [FileStream.Seek, SeekStart]

theorem digitsOnto_ge (ds : GoString) (n : Nat) : n ≤ digitsOnto n ds := by
  induction ds generalizing n with
  | nil => simp [digitsOnto]
  | cons c ds ih =>
    have h := ih (n * 10 + (c - 48))
    simp only [digitsOnto, List.foldl_cons] at h ⊢
    omega

theorem digitOf_digit (c : Nat) (h : isDigit c) : digitOf c = some (c - 48) := by
  unfold isDigit at h
  simp [digitOf, h]

theorem parseUintLoop_nondigit (cutoff maxVal n c : Nat) (rest : GoString) (h : ¬ isDigit c) :
    parseUintLoop cutoff maxVal n (c :: rest) = (0, some .ErrSyntax) := by
  unfold isDigit at h
  have hd : digitOf c = none ∨ ∃ d, digitOf c = some d ∧ d ≥ 10 := by
    unfold digitOf
    simp only [h, if_false]
    by_cases h1 : 97 ≤ c ||| 32 ∧ c ||| 32 ≤ 122
    · exact Or.inr ⟨(c ||| 32) - 97 + 10, by simp only [h1, and_self, if_true], by omega⟩
    · exact Or.inl (by simp only [h1, if_false])
  rw [parseUintLoop]
  rcases hd with hd | ⟨d, hd, hge⟩
  · rw [hd]
  · rw [hd]
    simp only [hge, if_true]

theorem parseUintLoop_digits (maxVal : Nat) (hmax : maxVal < 2 ^ 64) (rest : GoString) :
    ∀ (ds : GoString) (n : Nat), (∀ c ∈ ds, isDigit c) → n ≤ maxVal →
      parseUintLoop 1844674407370955162 maxVal n (ds ++ rest)
        = if digitsOnto n ds > maxVal then (maxVal, some .ErrRange)
          else parseUintLoop 1844674407370955162 maxVal (digitsOnto n ds) rest := by
  intro ds
  induction ds with
  | nil =>
    intro n _ hn
    have : ¬ (n > maxVal) := by omega
    simp [digitsOnto, this]
  | cons c ds ih =>
    intro n hds hn
    have hc : isDigit c := hds c (List.mem_cons_self _ _)
    have hrest : ∀ x ∈ ds, isDigit x := fun x hx => hds x (List.mem_cons_of_mem _ hx)
    have hge := digitsOnto_ge ds (n * 10 + (c - 48))
    have hstep : digitsOnto n (c :: ds) = digitsOnto (n * 10 + (c - 48)) ds := by
      simp [digitsOnto]
    have hd : c - 48 < 10 := by unfold isDigit at hc; omega
    rw [hstep, List.cons_append, parseUintLoop, digitOf_digit c hc]
    simp only
    have hnd : ¬ (c - 48 ≥ 10) := by omega
    simp only [hnd, if_false]
    by_cases hcut : n ≥ 1844674407370955162
    · have : digitsOnto (n * 10 + (c - 48)) ds > maxVal := by omega
      simp only [hcut, if_true, this]
    · simp only [hcut, if_false]
      have hm : n * 10 % 2 ^ 64 = n * 10 := Nat.mod_eq_of_lt (by omega)
      rw [hm]
      by_cases hov : n * 10 + (c - 48) < 2 ^ 64
      · have hm2 : (n * 10 + (c - 48)) % 2 ^ 64 = n * 10 + (c - 48) := Nat.mod_eq_of_lt hov
        rw [hm2]
        by_cases hgt : n * 10 + (c - 48) > maxVal
        · have h1 : n * 10 + (c - 48) < n * 10 ∨ n * 10 + (c - 48) > maxVal := Or.inr hgt
          have h2 : digitsOnto (n * 10 + (c - 48)) ds > maxVal := by omega
          simp only [h1, if_true, h2]
        · have h1 : ¬ (n * 10 + (c - 48) < n * 10 ∨ n * 10 + (c - 48) > maxVal) := by omega
          simp only [h1, if_false]
          exact ih (n * 10 + (c - 48)) hrest (by omega)
      · have h1 : (n * 10 + (c - 48)) % 2 ^ 64 < n * 10
            ∨ (n * 10 + (c - 48)) % 2 ^ 64 > maxVal := by
          left
          omega
        have h2 : digitsOnto (n * 10 + (c - 48)) ds > maxVal := by omega
        simp only [h1, if_true, h2]

theorem digitChar_toNat (k : Nat) (h : k < 10) : (Nat.digitChar k).toNat = 48 + k := by
  interval_cases k <;> rfl

theorem digitsValue_snoc (ds : GoString) (c : Nat) :
    digitsValue (ds ++ [c]) = digitsValue ds * 10 + (c - 48) := by
  simp [digitsValue, digitsOnto, List.foldl_append]

theorem toDigitsCore_spec : ∀ (fuel n : Nat) (ds : List Char), n < fuel →
    ∃ hd : GoString, (Nat.toDigitsCore 10 fuel n ds).map Char.toNat = hd ++ ds.map Char.toNat
      ∧ hd ≠ [] ∧ (∀ c ∈ hd, isDigit c) ∧ digitsValue hd = n := by
  intro fuel
  induction fuel with
  | zero => intro n ds h; omega
  | succ fuel ih =>
    intro n ds h
    have hd10 : n % 10 < 10 := Nat.mod_lt _ (by omega)
    have hdig : isDigit (48 + n % 10) := by unfold isDigit; omega
    by_cases h0 : n / 10 = 0
    · refine ⟨[48 + n % 10], ?_, by simp, ?_, ?_⟩
      · simp [Nat.toDigitsCore, h0, digitChar_toNat _ hd10]
      · intro c hc
        simp only [List.mem_singleton] at hc
        rw [hc]
        exact hdig
      · simp only [digitsValue, digitsOnto, List.foldl_cons, List.foldl_nil]
        omega
    · obtain ⟨hd, h1, _, h3, h4⟩ := ih (n / 10) (Nat.digitChar (n % 10) :: ds) (by omega)
      refine ⟨hd ++ [48 + n % 10], ?_, by simp, ?_, ?_⟩
      · simp only [Nat.toDigitsCore, h0, if_false]
        rw [h1]
        simp [digitChar_toNat _ hd10]
      · intro c hc
        rcases List.mem_append.mp hc with hc | hc
        · exact h3 c hc
        · simp only [List.mem_singleton] at hc
          rw [hc]
          exact hdig
      · rw [digitsValue_snoc, h4]
        omega

/-- The model of `%d` writes a decimal numeral: a minus sign for a negative
number, then a non-empty run of decimal digits worth its absolute value. -/
theorem fmtD_spec (n : Int) :
    ∃ ds : GoString, fmtD n = (if n < 0 then [45] else []) ++ ds
      ∧ ds ≠ [] ∧ (∀ c ∈ ds, isDigit c) ∧ digitsValue ds = n.natAbs := by
  obtain ⟨hd, h1, h2, h3, h4⟩ := toDigitsCore_spec (n.natAbs + 1) n.natAbs [] (by omega)
  refine ⟨hd, ?_, h2, h3, h4⟩
  have hdec : decimal n.natAbs = hd := by
    simpa [decimal, Nat.toDigits] using h1
  unfold fmtD
  split_ifs <;> simp [hdec]

theorem splitSign_cases (h : GoString) (neg : Bool) (body : GoString)
    (hs : splitSign h = (neg, body)) :
    (h = [] ∧ neg = false ∧ body = [])
    ∨ (h = 43 :: body ∧ neg = false)
    ∨ (h = 45 :: body ∧ neg = true)
    ∨ (∃ c cs, h = c :: cs ∧ c ≠ 43 ∧ c ≠ 45 ∧ neg = false ∧ body = c :: cs) := by
  unfold splitSign at hs
  split at hs
  · simp only [Prod.mk.injEq] at hs
    exact Or.inr (Or.inl ⟨by rw [hs.2], hs.1.symm⟩)
  · simp only [Prod.mk.injEq] at hs
    exact Or.inr (Or.inr (Or.inl ⟨by rw [hs.2], hs.1.symm⟩))
  · rename_i h43 h45
    simp only [Prod.mk.injEq] at hs
    cases h with
    | nil => exact Or.inl ⟨rfl, hs.1.symm, hs.2.symm⟩
    | cons c cs =>
      refine Or.inr (Or.inr (Or.inr ⟨c, cs, rfl, ?_, ?_, hs.1.symm, hs.2.symm⟩))
      · intro hc
        exact h43 cs (by rw [hc])
      · intro hc
        exact h45 cs (by rw [hc])

theorem ParseInt_of_ParseUint (h : GoString) (neg : Bool) (body : GoString)
    (hs : splitSign h = (neg, body)) (un : Nat) (e : Option NumError)
    (hu : ParseUint body 63 = (un, e)) (hun : un ≤ 2 ^ 63 - 1) :
    ParseInt h 63
      = if e = some .ErrSyntax then (0, some .ErrSyntax)
        else if neg = false ∧ un ≥ 2 ^ 62 then (2 ^ 62 - 1, some .ErrRange)
        else if neg = true ∧ un > 2 ^ 62 then (-(2 ^ 62), some .ErrRange)
        else (if neg = true then -(un : Int) else (un : Int), none) := by
  have hcut : (2 ^ (63 - 1)) % 2 ^ 64 = 2 ^ 62 := by norm_num
  have w1 : wrap64 4611686018427387903 = 4611686018427387903 := by decide
  have w2 : wrap64 (-(wrap64 4611686018427387904)) = -4611686018427387904 := by decide
  have w3 : wrap64 (un : Int) = un := wrap64_of_isInt64 _ (by unfold isInt64; omega)
  have w4 : wrap64 (-(un : Int)) = -(un : Int) := wrap64_of_isInt64 _ (by unfold isInt64; omega)
  have tail : ∀ (ng : Bool),
      (match ((un, e) : Nat × Option NumError) with
        | (_, some .ErrSyntax) => ((0 : Int), some NumError.ErrSyntax)
        | (un, _) =>
          let cutoff : Nat := (2 ^ (63 - 1)) % 2 ^ 64
          if !ng ∧ un ≥ cutoff then (wrap64 ((cutoff : Int) - 1), some .ErrRange)
          else if ng ∧ un > cutoff then (wrap64 (-(wrap64 cutoff)), some .ErrRange)
          else
            let n := wrap64 un
            (if ng then wrap64 (-n) else n, none))
      = if e = some .ErrSyntax then (0, some .ErrSyntax)
        else if ng = false ∧ un ≥ 2 ^ 62 then (2 ^ 62 - 1, some .ErrRange)
        else if ng = true ∧ un > 2 ^ 62 then (-(2 ^ 62), some .ErrRange)
        else (if ng = true then -(un : Int) else (un : Int), none) := by
    intro ng
    rcases e with _ | e
    · cases ng <;> simp [hcut, w1, w2, w3, w4]
    · cases e
      · simp
      · cases ng <;> simp [hcut, w1, w2, w3, w4]
  rcases splitSign_cases h neg body hs with ⟨rfl, rfl, rfl⟩ | ⟨rfl, rfl⟩ | ⟨rfl, rfl⟩ |
    ⟨c, cs, rfl, h43, h45, rfl, rfl⟩
  · have he : e = some .ErrSyntax := by
      simp [ParseUint] at hu
      exact hu.2.symm
    simp [ParseInt, he]
  · rw [← tail false, ← hu]
    simp [ParseInt]
  · rw [← tail true, ← hu]
    simp [ParseInt]
  · rw [← tail false, ← hu]
    simp [ParseInt, h43, h45]

theorem ParseUint_digits (ds rest : GoString) (hne : ds ≠ []) (hds : ∀ c ∈ ds, isDigit c) :
    ParseUint (ds ++ rest) 63
      = if digitsValue ds > 9223372036854775807 then (9223372036854775807, some .ErrRange)
        else parseUintLoop 1844674407370955162 9223372036854775807 (digitsValue ds) rest := by
  have h1 : ds ++ rest ≠ [] := by simp [hne]
  have h2 : maxUint64 / 10 + 1 = 1844674407370955162 := by decide
  have h3 : ((2 ^ 63) % 2 ^ 64 + 2 ^ 64 - 1) % 2 ^ 64 = 9223372036854775807 := by decide
  unfold ParseUint
  rw [if_neg h1, h2, h3]
  exact parseUintLoop_digits 9223372036854775807 (by decide) rest ds 0 hds (by omega)

theorem ParseInt_numeral (h : GoString) (neg : Bool) (body ds rest : GoString)
    (hs : splitSign h = (neg, body)) (hb : body = ds ++ rest) (hne : ds ≠ [])
    (hds : ∀ c ∈ ds, isDigit c) (hr : rest = [] ∨ digitsValue ds > 9223372036854775807) :
    (ParseInt h 63).1
      = if neg = true then max (-(digitsValue ds : Int)) (-4611686018427387904)
        else min (digitsValue ds : Int) 4611686018427387903 := by
  have hu := ParseUint_digits ds rest hne hds
  rw [← hb] at hu
  by_cases hv : digitsValue ds > 9223372036854775807
  · rw [if_pos hv] at hu
    rw [ParseInt_of_ParseUint h neg body hs _ _ hu (by decide)]
    cases neg
    · simp only [Bool.false_eq_true, if_false]
      rw [min_eq_right (by omega)]
      simp
    · simp only [if_true]
      rw [max_eq_right (by omega)]
      simp
  · rw [if_neg hv] at hu
    have hrest : rest = [] := by
      rcases hr with hr | hr
      · exact hr
      · exact absurd hr hv
    rw [hrest, parseUintLoop] at hu
    rw [ParseInt_of_ParseUint h neg body hs _ _ hu (by omega)]
    cases neg
    · simp only [Bool.false_eq_true, if_false, false_and]
      by_cases hc : 4611686018427387904 ≤ digitsValue ds
      · rw [min_eq_right (by omega)]
        simp [hc]
      · rw [min_eq_left (by omega)]
        simp [hc]
    · simp only [if_true]
      by_cases hc : 4611686018427387904 < digitsValue ds
      · rw [max_eq_right (by omega)]
        simp [hc]
      · rw [max_eq_left (by omega)]
        simp [hc]

theorem ParseInt_syntax (h : GoString) (neg : Bool) (body : GoString)
    (hs : splitSign h = (neg, body))
    (hb : body = [] ∨ ∃ ds c rest, body = ds ++ c :: rest ∧ (∀ x ∈ ds, isDigit x) ∧ ¬ isDigit c
      ∧ digitsValue ds ≤ 9223372036854775807) :
    (ParseInt h 63).1 = 0 := by
  have hu : ParseUint body 63 = (0, some .ErrSyntax) := by
    rcases hb with rfl | ⟨ds, c, rest, rfl, hds, hc, hv⟩
    · simp [ParseUint]
    · cases ds with
      | nil =>
        simp only [ParseUint, List.nil_append, List.cons_ne_nil, reduceCtorEq, if_false]
        exact parseUintLoop_nondigit _ _ _ _ _ hc
      | cons d ds =>
        rw [ParseUint_digits (d :: ds) (c :: rest) (by simp) hds,
          if_neg (by omega), parseUintLoop_nondigit _ _ _ _ _ hc]
  rw [ParseInt_of_ParseUint h neg body hs _ _ hu (by decide)]
  simp

/-! ## The claims -/

/-- C1: a provider that answers the successive list requests without error
with pages `p1..pk` whose markers are non-empty and then one page with an
empty marker makes `List` issue exactly `k+1` requests, the first with the
empty marker and each later one with the escaped marker of the page before,
and return a nil error, the pages' items in page order and the pages' common
prefixes in page order; the rest of the provider's script is left unread. -/
theorem List_paginates (q : QiniuObjectStorage) (pfx delimiter host : GoString)
    (exhausted : GoError) (pages : List listFilesRet) (last : listFilesRet)
    (rest : List (Except GoError listFilesRet)) (fuel : Nat)
    (hpages : ∀ p ∈ pages, p.Marker ≠ []) (hlast : last.Marker = [])
    (hfuel : pages.length + 1 ≤ fuel) :
    QiniuObjectStorage.List (scriptedEnv host exhausted) q fuel
        ⟨(pages ++ [last]).map Except.ok ++ rest, []⟩ pfx delimiter
      = some (⟨pageObjects (pages ++ [last]), pagePrefixes (pages ++ [last]), none⟩,
              ⟨rest, requestUrls (uriList host q.bucket pfx delimiter)
                ([] :: pages.map (fun p => p.Marker))⟩)
    ∧ (requestUrls (uriList host q.bucket pfx delimiter)
        ([] :: pages.map (fun p => p.Marker))).length = pages.length + 1 := by
  constructor
  · have h := listLoop_pages host exhausted (uriList host q.bucket pfx delimiter) last rest hlast
      pages fuel [] [] [] [] hpages hfuel
    simpa [QiniuObjectStorage.List, scriptedEnv] using h
  · simp [requestUrls]

/-- C2: when the first `j` requests succeed with non-empty markers and request
`j+1` fails with `e`, `List` stops there, having issued exactly `j+1`
requests, and returns `e` itself with the objects and common prefixes of the
first `j` pages in order. -/
theorem List_stops_on_error (q : QiniuObjectStorage) (pfx delimiter host : GoString)
    (exhausted e : GoError) (pages : List listFilesRet)
    (rest : List (Except GoError listFilesRet)) (fuel : Nat)
    (hpages : ∀ p ∈ pages, p.Marker ≠ []) (hfuel : pages.length + 1 ≤ fuel) :
    QiniuObjectStorage.List (scriptedEnv host exhausted) q fuel
        ⟨pages.map Except.ok ++ Except.error e :: rest, []⟩ pfx delimiter
      = some (⟨pageObjects pages, pagePrefixes pages, some e⟩,
              ⟨rest, requestUrls (uriList host q.bucket pfx delimiter)
                ([] :: pages.map (fun p => p.Marker))⟩)
    ∧ (requestUrls (uriList host q.bucket pfx delimiter)
        ([] :: pages.map (fun p => p.Marker))).length = pages.length + 1 := by
  constructor
  · have h := listLoop_error host exhausted (uriList host q.bucket pfx delimiter) e rest
      pages fuel [] [] [] [] hpages hfuel
    simpa [QiniuObjectStorage.List, scriptedEnv] using h
  · simp [requestUrls]

/-- C4: for every non-nil error, `IsObjectNotFoundErr` returns, and returns
true exactly when the message contains the substring "404"; it is true for
"http status 404" and false for "http status 403" and "connection reset". -/
theorem IsObjectNotFoundErr_iff :
    (∀ e : GoError,
      (IsObjectNotFoundErr (some e) = some true ∨ IsObjectNotFoundErr (some e) = some false)
      ∧ (IsObjectNotFoundErr (some e) = some true
          ↔ ∃ pre post, e.msg = pre ++ str "404" ++ post))
    ∧ IsObjectNotFoundErr (some ⟨str "http status 404"⟩) = some true
    ∧ IsObjectNotFoundErr (some ⟨str "http status 403"⟩) = some false
    ∧ IsObjectNotFoundErr (some ⟨str "connection reset"⟩) = some false := by
  refine ⟨fun e => ?_, by decide, by decide, by decide⟩
  rw [← Contains_iff]
  unfold IsObjectNotFoundErr
  by_cases h : Contains e.msg (str "404") = true <;> simp [h]

/-- C5: for a response whose status is not 200, `GetObject` closes the body
and returns no stream, length 0 and the error "http status " followed by the
decimal status, whatever closing the body returned; for status 200 it returns
the response body, not closed by the call, with a nil error. The decimal
status is a minus sign for a negative number and then decimal digits worth
its absolute value. -/
theorem GetObject_status (env : HttpEnv) (q : QiniuObjectStorage) (objectKey : GoString)
    (resp : Response)
    (hreq : env.newRequest (str "GET") (env.makeUrl q.mac q.base objectKey) = none)
    (hdo : env.doRequest ⟨str "GET", env.makeUrl q.mac q.base objectKey, str "storage"⟩
      = .ok resp) :
    (resp.StatusCode ≠ 200 →
      GetObject env q objectKey
        = ⟨none, 0, some ⟨str "http status " ++ fmtD resp.StatusCode⟩,
            some { resp.Body with closed := true }⟩)
    ∧ (resp.StatusCode = 200 →
      (GetObject env q objectKey).stream = some resp.Body
      ∧ (GetObject env q objectKey).err = none
      ∧ (GetObject env q objectKey).respBody = some resp.Body)
    ∧ (∃ ds : GoString, fmtD resp.StatusCode = (if resp.StatusCode < 0 then [45] else []) ++ ds
        ∧ ds ≠ [] ∧ (∀ c ∈ ds, isDigit c) ∧ digitsValue ds = resp.StatusCode.natAbs) := by
  refine ⟨?_, ?_, fmtD_spec resp.StatusCode⟩
  · intro hs
    simp [GetObject, hreq, hdo, hs, Body.Close]
  · intro hs
    simp [GetObject, hreq, hdo, hs]

/-- C8 as the code has it: for a non-empty prefix and delimiter the URL that
`List` requests is host + "/list?bucket=" + esc(bucket) + "&delimiter=" +
esc(delimiter) + "&limit=1000&prefix=" + esc(prefix) + "&marker=" + esc(m):
the parameters come out sorted by name, then the marker, with limit 1000. -/
theorem uriList_eq (host bucket pfx delimiter m : GoString) (hp : pfx ≠ [])
    (hd : delimiter ≠ []) :
    uriList host bucket pfx delimiter ++ QueryEscape m
      = host ++ str "/list?bucket=" ++ QueryEscape bucket
          ++ str "&delimiter=" ++ QueryEscape delimiter
          ++ str "&limit=1000&prefix=" ++ QueryEscape pfx
          ++ str "&marker=" ++ QueryEscape m := by
  have r1 : str "/list?bucket=" = str "/list?" ++ (QueryEscape (str "bucket") ++ [61]) := by
    decide
  have r2 : str "&delimiter=" = [38] ++ (QueryEscape (str "delimiter") ++ [61]) := by decide
  have r3 : str "&limit=1000&prefix=" = [38] ++ (QueryEscape (str "limit") ++ ([61] ++
      (QueryEscape (str "1000") ++ ([38] ++ (QueryEscape (str "prefix") ++ [61]))))) := by
    decide
  have h := encode_four (str "bucket") (str "prefix") (str "delimiter") (str "limit")
    bucket pfx delimiter (str "1000") (by decide) (by decide) (by decide) (by decide) (by decide)
    (by decide) (by decide)
  simp only [uriList, hp, hd, ne_eq, not_false_eq_true, if_true]
  rw [h, r1, r2, r3]
  simp only [List.append_assoc]

/-- C8 as stated fails: for host "h", bucket "b", prefix "p", delimiter "/"
and marker "m" the requested URL is not the one with the parameters in the
order bucket, prefix, delimiter, limit. -/
theorem uriList_order_counterexample :
    uriList (str "h") (str "b") (str "p") (str "/") ++ QueryEscape (str "m")
      ≠ str "h" ++ str "/list?bucket=" ++ QueryEscape (str "b")
          ++ str "&prefix=" ++ QueryEscape (str "p")
          ++ str "&delimiter=" ++ QueryEscape (str "/")
          ++ str "&limit=1000&marker=" ++ QueryEscape (str "m") := by
  decide

/-- C10: for a status `s` with `100 ≤ s ≤ 599` other than 200, the error
`GetObject` returns is classified as not-found exactly when `s = 404`. -/
theorem GetObject_error_notFound_iff (env : HttpEnv) (q : QiniuObjectStorage)
    (objectKey : GoString) (resp : Response)
    (hreq : env.newRequest (str "GET") (env.makeUrl q.mac q.base objectKey) = none)
    (hdo : env.doRequest ⟨str "GET", env.makeUrl q.mac q.base objectKey, str "storage"⟩
      = .ok resp)
    (hlo : 100 ≤ resp.StatusCode) (hhi : resp.StatusCode ≤ 599) (hs : resp.StatusCode ≠ 200) :
    (IsObjectNotFoundErr (GetObject env q objectKey).err = some true
      ∨ IsObjectNotFoundErr (GetObject env q objectKey).err = some false)
    ∧ (IsObjectNotFoundErr (GetObject env q objectKey).err = some true
        ↔ resp.StatusCode = 404) := by
  obtain ⟨n, hn, hlt⟩ : ∃ n : Nat, resp.StatusCode = ((n + 100 : Nat) : Int) ∧ n < 500 :=
    ⟨(resp.StatusCode - 100).toNat, by omega, by omega⟩
  have key : Contains (str "http status " ++ fmtD resp.StatusCode) (str "404") = true
      ↔ resp.StatusCode = 404 := by
    rw [hn, status_message_404 n hlt]
    omega
  have herr : (GetObject env q objectKey).err
      = some ⟨str "http status " ++ fmtD resp.StatusCode⟩ := by
    simp [GetObject, hreq, hdo, hs, Body.Close]
  rw [herr]
  unfold IsObjectNotFoundErr
  by_cases hc : Contains (str "http status " ++ fmtD resp.StatusCode) (str "404") = true
  · simp only [hc, if_true, true_or, true_and, true_iff]
    exact key.mp hc
  · have hne : ¬ (resp.StatusCode = 404) := fun h' => hc (key.mpr h')
    simp [hc, hne]

/-- C9 as the code has it: for a put time `p` whose hundredfold fits `int64`
(`-92233720368547758 ≤ p ≤ 92233720368547758`), the object `List` appends has
the item's key and the instant `p * 100` ns after the epoch:
`floor(p / 10^7)` seconds and `(p mod 10^7) * 100` nanoseconds. -/
theorem appendItems_modifiedAt (objects : List StorageObject) (items : List ListItem)
    (hrange : ∀ it ∈ items, -92233720368547758 ≤ it.PutTime ∧ it.PutTime ≤ 92233720368547758) :
    appendItems objects items
      = objects ++ items.map (fun it =>
          ⟨it.Key, ⟨Int.fdiv it.PutTime 10000000, Int.fmod it.PutTime 10000000 * 100⟩⟩)
    ∧ ∀ it ∈ items,
        (toStorageObject it).ModifiedAt.sec * 1000000000 + (toStorageObject it).ModifiedAt.nsec
          = it.PutTime * 100 := by
  have key : ∀ it ∈ items, toStorageObject it
      = ⟨it.Key, ⟨Int.fdiv it.PutTime 10000000, Int.fmod it.PutTime 10000000 * 100⟩⟩ := by
    intro it hit
    have h := hrange it hit
    have hw : wrap64 (it.PutTime * 100) = it.PutTime * 100 :=
      wrap64_of_isInt64 _ (by unfold isInt64; omega)
    have hi : isInt64 (it.PutTime * 100) := by unfold isInt64; omega
    rw [Int.fdiv_eq_ediv _ (by omega), Int.fmod_eq_emod _ (by omega)]
    simp only [toStorageObject, hw, timeUnix_zero _ hi, StorageObject.mk.injEq, Time.mk.injEq,
      true_and]
    omega
  constructor
  · rw [appendItems_eq]
    congr 1
    exact List.map_congr_left key
  · intro it hit
    rw [key it hit, Int.fdiv_eq_ediv _ (by omega), Int.fmod_eq_emod _ (by omega)]
    simp only
    omega

/-- C9 as stated fails: for the put time `92233720368547759` the product
`p * 100` overflows `int64`, and the object `List` appends is not the one at
`floor(p / 10^7)` seconds and `(p mod 10^7) * 100` nanoseconds. -/
theorem appendItems_modifiedAt_counterexample :
    appendItems [] [⟨str "k", 92233720368547759⟩]
      ≠ [⟨str "k", ⟨Int.fdiv 92233720368547759 10000000,
          Int.fmod 92233720368547759 10000000 * 100⟩⟩] := by
  decide

/-- C3: at a `PutObject` call with clock reading `now`, a token is minted for
the policy with scope the bucket and expiry 4000, and `last` is set to `now`,
exactly when the token is empty or `now - last > 3600`; otherwise token and
`last` stay as they were; either way the upload gets the stored token. So a
fresh adapter mints on its first call, a call at most 3600 seconds after the
mint reuses the token, and a call more than 3600 seconds after it mints again.
The code subtracts in `int64`: the first two parts hold for every state and
reading with that difference, which is `now - last` itself whenever
`now - last` fits `int64`, as it does for clock readings. The reuse is for a
minted token that is not empty, as an upload token is. -/
theorem PutObject_token {σ : Type} (env : PutEnv σ) (now : Int) (q : QiniuObjectStorage)
    (objectKey : GoString) (object : ReadSeeker σ) :
    ((q.token = [] ∨ wrap64 (now - q.last) > 3600) →
      (PutObject env now q objectKey object).1
        = { q with token := env.UploadToken now ⟨q.bucket, 4000⟩ q.mac, last := now })
    ∧ (¬ (q.token = [] ∨ wrap64 (now - q.last) > 3600) →
      (PutObject env now q objectKey object).1 = q)
    ∧ (isInt64 (now - q.last) →
        ((q.token = [] ∨ now - q.last > 3600) →
          (PutObject env now q objectKey object).1
            = { q with token := env.UploadToken now ⟨q.bucket, 4000⟩ q.mac, last := now })
        ∧ (¬ (q.token = [] ∨ now - q.last > 3600) →
          (PutObject env now q objectKey object).1 = q))
    ∧ (PutObject env now q objectKey object).2.1.token
        = (PutObject env now q objectKey object).1.token
    ∧ (∀ (cfg : QiniuStorageConfig) (now1 now2 : Int) (key2 : GoString) (object2 : ReadSeeker σ),
        let q1 := (PutObject env now1 (NewQiniuObjectStorage cfg) objectKey object).1
        q1.token = env.UploadToken now1 ⟨cfg.BucketName, 4000⟩ (cfg.AccessKeyId, cfg.SecretAccessKey)
        ∧ q1.last = now1
        ∧ (q1.token ≠ [] → 0 ≤ now2 - now1 → now2 - now1 ≤ 3600 →
            (PutObject env now2 q1 key2 object2).1 = q1
            ∧ (PutObject env now2 q1 key2 object2).2.1.token = q1.token)
        ∧ (3600 < now2 - now1 → isInt64 (now2 - now1) →
            (PutObject env now2 q1 key2 object2).1.token
              = env.UploadToken now2 ⟨cfg.BucketName, 4000⟩
                  (cfg.AccessKeyId, cfg.SecretAccessKey)
            ∧ (PutObject env now2 q1 key2 object2).1.last = now2)) := by
  refine ⟨?_, ?_, ?_, ?_, ?_⟩
  · intro h
    simp only [PutObject, h, if_true]
  · intro h
    simp only [PutObject, h, if_false]
  · intro hd
    have hw := wrap64_of_isInt64 _ hd
    constructor
    · intro h
      simp only [PutObject, hw, h, if_true]
    · intro h
      simp only [PutObject, hw, h, if_false]
  · simp only [PutObject]
  · intro cfg now1 now2 key2 object2
    have hq1 : (PutObject env now1 (NewQiniuObjectStorage cfg) objectKey object).1
        = { NewQiniuObjectStorage cfg with
            token := env.UploadToken now1 ⟨cfg.BucketName, 4000⟩
              (cfg.AccessKeyId, cfg.SecretAccessKey), last := now1 } := by
      simp [PutObject, NewQiniuObjectStorage]
    simp only [hq1]
    refine ⟨trivial, trivial, ?_, ?_⟩
    · intro hne h0 h36
      have hw2 : wrap64 (now2 - now1) = now2 - now1 :=
        wrap64_of_isInt64 _ (by unfold isInt64; omega)
      have hc : ¬ (now2 - now1 > 3600) := by omega
      simp only [PutObject, hw2, hne, hc, or_self, if_false, and_self]
    · intro h36 hi
      have hw2 : wrap64 (now2 - now1) = now2 - now1 := wrap64_of_isInt64 _ hi
      have hc : now2 - now1 > 3600 := h36
      simp [PutObject, hw2, hc, NewQiniuObjectStorage]

/-- C6: for content of `N` bytes, the size `PutObject` hands to the uploader
is `N`, whether the content comes as a `*bytes.Reader` or a `*strings.Reader`
(their `Size()`, at any read position) or as another seekable stream over it
whose seeks succeed (seeking to the end returns `N`, seeking to the start
returns 0, and the size is their difference); the measurements agree. -/
theorem PutObject_size {σ : Type} (env : PutEnv σ) (now : Int) (q : QiniuObjectStorage)
    (objectKey content : GoString) (hN : (content.length : Int) < 2 ^ 63) :
    (∀ i, (PutObject env now q objectKey (.bytesReader content i)).2.1.size = content.length)
    ∧ (∀ i, (PutObject env now q objectKey (.stringsReader content i)).2.1.size = content.length)
    ∧ (∀ st st1 st2,
        env.Seek st 0 SeekEnd = (((content.length : Int), none), st1) →
        env.Seek st1 0 SeekStart = ((0, none), st2) →
        (PutObject env now q objectKey (.other st)).2.1.size = content.length) := by
  refine ⟨fun i => ?_, fun i => ?_, ?_⟩
  · simp only [PutObject]
  · simp only [PutObject]
  · intro st st1 st2 h1 h2
    have hw : wrap64 ((content.length : Int) - 0) = content.length :=
      by rw [sub_zero]; exact wrap64_of_isInt64 _ (by unfold isInt64; omega)
    simp only [PutObject, h1, h2, hw]

/-- C7 as the code has it: for a response with status 200 `GetObject` returns
a nil error and the body. The length is the value of the Content-Length header
when it is an optional sign and decimal digits worth a value in
`[-2^62, 2^62 - 1]`; when the digits are worth a value outside that range it
is the nearest bound, `2^62 - 1` or `-2^62`; it is 0 when after the optional
sign the header is empty or has a byte that is not a digit behind digits worth
at most `2^63 - 1`. -/
theorem GetObject_length (env : HttpEnv) (q : QiniuObjectStorage) (objectKey : GoString)
    (resp : Response)
    (hreq : env.newRequest (str "GET") (env.makeUrl q.mac q.base objectKey) = none)
    (hdo : env.doRequest ⟨str "GET", env.makeUrl q.mac q.base objectKey, str "storage"⟩
      = .ok resp)
    (hs : resp.StatusCode = 200) :
    (GetObject env q objectKey).err = none
    ∧ (GetObject env q objectKey).stream = some resp.Body
    ∧ (∀ neg body, splitSign resp.contentLength = (neg, body) → body ≠ [] →
        (∀ c ∈ body, isDigit c) →
        (neg = false → digitsValue body ≤ 4611686018427387903 →
          (GetObject env q objectKey).size = digitsValue body)
        ∧ (neg = true → digitsValue body ≤ 4611686018427387904 →
          (GetObject env q objectKey).size = -(digitsValue body : Int)))
    ∧ (∀ neg body ds rest, splitSign resp.contentLength = (neg, body) → body = ds ++ rest →
        ds ≠ [] → (∀ c ∈ ds, isDigit c) →
        (rest = [] ∨ digitsValue ds > 9223372036854775807) →
        (neg = false → digitsValue ds > 4611686018427387903 →
          (GetObject env q objectKey).size = 4611686018427387903)
        ∧ (neg = true → digitsValue ds > 4611686018427387904 →
          (GetObject env q objectKey).size = -4611686018427387904))
    ∧ (∀ neg body, splitSign resp.contentLength = (neg, body) →
        (body = [] ∨ ∃ ds c rest, body = ds ++ c :: rest ∧ (∀ x ∈ ds, isDigit x) ∧ ¬ isDigit c
          ∧ digitsValue ds ≤ 9223372036854775807) →
        (GetObject env q objectKey).size = 0) := by
  have hsize : (GetObject env q objectKey).size = (ParseInt resp.contentLength 63).1 := by
    simp [GetObject, hreq, hdo, hs]
  refine ⟨by simp [GetObject, hreq, hdo, hs], by simp [GetObject, hreq, hdo, hs], ?_, ?_, ?_⟩
  · intro neg body hsp hne hds
    have h := ParseInt_numeral resp.contentLength neg body body [] hsp (by simp) hne hds
      (Or.inl rfl)
    rw [hsize, h]
    constructor
    · intro hn hv
      rw [hn]
      simp only [Bool.false_eq_true, if_false]
      exact min_eq_left (by omega)
    · intro hn hv
      rw [hn]
      simp only [if_true]
      exact max_eq_left (by omega)
  · intro neg body ds rest hsp hb hne hds hr
    have h := ParseInt_numeral resp.contentLength neg body ds rest hsp hb hne hds hr
    rw [hsize, h]
    constructor
    · intro hn hv
      rw [hn]
      simp only [Bool.false_eq_true, if_false]
      exact min_eq_right (by omega)
    · intro hn hv
      rw [hn]
      simp only [if_true]
      exact max_eq_right (by omega)
  · intro neg body hsp hb
    rw [hsize]
    exact ParseInt_syntax resp.contentLength neg body hsp hb

/-! ## Instances of the claims -/

/-- C1 on a two-page listing: two requests, both pages' items and prefixes. -/
theorem List_paginates_witness :
    (∀ p ∈ [samplePage "m1" "a"], p.Marker ≠ []) ∧ (samplePage "" "b").Marker = []
    ∧ [samplePage "m1" "a"].length + 1 ≤ 5
    ∧ QiniuObjectStorage.List (scriptedEnv (str "h") ⟨str "eof"⟩) sampleAdapter 5
        ⟨([samplePage "m1" "a"] ++ [samplePage "" "b"]).map Except.ok ++ [], []⟩
        (str "p") (str "/")
      = some (⟨pageObjects ([samplePage "m1" "a"] ++ [samplePage "" "b"]),
               pagePrefixes ([samplePage "m1" "a"] ++ [samplePage "" "b"]), none⟩,
              ⟨[], requestUrls (uriList (str "h") sampleAdapter.bucket (str "p") (str "/"))
                ([] :: [samplePage "m1" "a"].map (fun p => p.Marker))⟩) :=
  ⟨by decide, by decide, by decide,
    (List_paginates sampleAdapter (str "p") (str "/") (str "h") ⟨str "eof"⟩
      [samplePage "m1" "a"] (samplePage "" "b") [] 5 (by decide) (by decide) (by decide)).1⟩

/-- C2 on a listing whose second request fails: the first page and the error. -/
theorem List_stops_on_error_witness :
    (∀ p ∈ [samplePage "m1" "a"], p.Marker ≠ []) ∧ [samplePage "m1" "a"].length + 1 ≤ 5
    ∧ QiniuObjectStorage.List (scriptedEnv (str "h") ⟨str "eof"⟩) sampleAdapter 5
        ⟨[samplePage "m1" "a"].map Except.ok ++ Except.error ⟨str "boom"⟩ :: [], []⟩
        (str "p") (str "/")
      = some (⟨pageObjects [samplePage "m1" "a"], pagePrefixes [samplePage "m1" "a"],
               some ⟨str "boom"⟩⟩,
              ⟨[], requestUrls (uriList (str "h") sampleAdapter.bucket (str "p") (str "/"))
                ([] :: [samplePage "m1" "a"].map (fun p => p.Marker))⟩) :=
  ⟨by decide, by decide,
    (List_stops_on_error sampleAdapter (str "p") (str "/") (str "h") ⟨str "eof"⟩ ⟨str "boom"⟩
      [samplePage "m1" "a"] [] 5 (by decide) (by decide)).1⟩

/-- C3 on a fresh adapter at clock reading 1700000000: the first call mints. -/
theorem PutObject_token_witness :
    isInt64 (1700000000 - sampleAdapter.last)
    ∧ (PutObject samplePut 1700000000 sampleAdapter (str "k") (.bytesReader (str "abc") 0)).1
      = { sampleAdapter with
          token := samplePut.UploadToken 1700000000 ⟨sampleAdapter.bucket, 4000⟩
            sampleAdapter.mac,
          last := 1700000000 } :=
  ⟨by decide,
    ((PutObject_token samplePut 1700000000 sampleAdapter (str "k")
      (.bytesReader (str "abc") 0)).2.2.1 (by decide)).1 (Or.inl rfl)⟩

/-- C5 on a 404 response: no stream, length 0, "http status 404", body closed. -/
theorem GetObject_status_witness :
    (sampleResponse 404 "0").StatusCode ≠ 200
    ∧ GetObject (fixedHttp (sampleResponse 404 "0")) sampleAdapter (str "k")
      = ⟨none, 0, some ⟨str "http status " ++ fmtD (sampleResponse 404 "0").StatusCode⟩,
          some { (sampleResponse 404 "0").Body with closed := true }⟩ :=
  ⟨by decide,
    (GetObject_status (fixedHttp (sampleResponse 404 "0")) sampleAdapter (str "k")
      (sampleResponse 404 "0") rfl rfl).1 (by decide)⟩

/-- C6 on the three bytes "abc" behind a file-like stream at offset 1. -/
theorem PutObject_size_witness :
    (((str "abc").length : Int) < 2 ^ 63)
    ∧ (PutObject samplePut 1700000000 sampleAdapter (str "k")
        (.other (⟨str "abc", 1⟩ : FileStream))).2.1.size = (str "abc").length :=
  ⟨by decide,
    (PutObject_size samplePut 1700000000 sampleAdapter (str "k") (str "abc") (by decide)).2.2
      ⟨str "abc", 1⟩ ⟨str "abc", 3⟩ ⟨str "abc", 0⟩ (by decide) (by decide)⟩

/-- C7 on the header "1234": the length is 1234. -/
theorem GetObject_length_witness :
    (sampleResponse 200 "1234").StatusCode = 200
    ∧ (GetObject (fixedHttp (sampleResponse 200 "1234")) sampleAdapter (str "k")).size
      = digitsValue (str "1234") :=
  ⟨rfl,
    ((GetObject_length (fixedHttp (sampleResponse 200 "1234")) sampleAdapter (str "k")
      (sampleResponse 200 "1234") rfl rfl rfl).2.2.1 false (str "1234") (by decide) (by decide)
      (by decide)).1 rfl (by decide)⟩

/-- C7 as stated fails: the header "4611686018427387904" (`2^62`) does not
parse, the failure being `ErrRange`, and the length returned with the nil
error is `2^62 - 1`, not 0. -/
theorem GetObject_length_counterexample :
    (ParseInt (str "4611686018427387904") 63).2 = some .ErrRange
    ∧ (GetObject (fixedHttp (sampleResponse 200 "4611686018427387904")) sampleAdapter
        (str "k")).err = none
    ∧ (GetObject (fixedHttp (sampleResponse 200 "4611686018427387904")) sampleAdapter
        (str "k")).size = 4611686018427387903
    ∧ (GetObject (fixedHttp (sampleResponse 200 "4611686018427387904")) sampleAdapter
        (str "k")).size ≠ 0 := by
  decide

/-- C8 as the code has it, on host "h", bucket "b", prefix "p", delimiter "/". -/
theorem uriList_eq_witness :
    str "p" ≠ [] ∧ str "/" ≠ []
    ∧ uriList (str "h") (str "b") (str "p") (str "/") ++ QueryEscape (str "m")
      = str "h" ++ str "/list?bucket=" ++ QueryEscape (str "b")
          ++ str "&delimiter=" ++ QueryEscape (str "/")
          ++ str "&limit=1000&prefix=" ++ QueryEscape (str "p")
          ++ str "&marker=" ++ QueryEscape (str "m") :=
  ⟨by decide, by decide,
    uriList_eq (str "h") (str "b") (str "p") (str "/") (str "m") (by decide) (by decide)⟩

/-- C9 as the code has it, on the put time 17000000000000001. -/
theorem appendItems_modifiedAt_witness :
    (∀ it ∈ [(⟨str "k", 17000000000000001⟩ : ListItem)],
      -92233720368547758 ≤ it.PutTime ∧ it.PutTime ≤ 92233720368547758)
    ∧ appendItems [] [(⟨str "k", 17000000000000001⟩ : ListItem)]
      = [] ++ [(⟨str "k", 17000000000000001⟩ : ListItem)].map (fun it =>
          ⟨it.Key, ⟨Int.fdiv it.PutTime 10000000, Int.fmod it.PutTime 10000000 * 100⟩⟩) :=
  ⟨by decide,
    (appendItems_modifiedAt [] [⟨str "k", 17000000000000001⟩] (by decide)).1⟩

/-- C10 on a 404 response: the error is classified as not-found. -/
theorem GetObject_error_notFound_iff_witness :
    (100 ≤ (sampleResponse 404 "0").StatusCode ∧ (sampleResponse 404 "0").StatusCode ≤ 599
      ∧ (sampleResponse 404 "0").StatusCode ≠ 200)
    ∧ (IsObjectNotFoundErr
          (GetObject (fixedHttp (sampleResponse 404 "0")) sampleAdapter (str "k")).err
        = some true ↔ (sampleResponse 404 "0").StatusCode = 404) :=
  ⟨by decide,
    (GetObject_error_notFound_iff (fixedHttp (sampleResponse 404 "0")) sampleAdapter (str "k")
      (sampleResponse 404 "0") rfl rfl (by decide) (by decide) (by decide)).2⟩

end Qiniu
